import Mathlib

/-!
Verification of the device-interaction layer in
build/android/pylib/device/device_utils.py.

Strings of the Python 2 source are byte strings; we model them as lists of
characters (Str).  Python dicts are modelled as association lists whose keys
are kept unique by the update operation (dictSet), exactly as a dict does.
Each definition below is a shallow embedding of the correspondingly named
function or code path of DeviceUtils; source line numbers are given in the
doc comments.
-/

namespace DeviceUtilsModel

/-- Byte strings of the Python source, as lists of characters. -/
abbrev Str := List Char

/-- Dict lookup (first entry with the key; dict keys are unique). -/
def alookup {α β : Type} [DecidableEq α] : List (α × β) → α → Option β
  | [], _ => none
  | (k0, v0) :: rest, k => if k0 = k then some v0 else alookup rest k

/-- Dict assignment d[k] = v: overwrite the value when the key is present,
append a new entry otherwise (insertion order, as a Python dict update). -/
def dictSet {α β : Type} [DecidableEq α] : List (α × β) → α → β → List (α × β)
  | [], k, v => [(k, v)]
  | (k0, v0) :: rest, k, v =>
    if k0 = k then (k0, v) :: rest else (k0, v0) :: dictSet rest k v

/-- Dict deletion del d[k]: removes the entry with key k.  Since dict keys
are unique, removing every entry with that key is the same operation. -/
def dictDel {α β : Type} [DecidableEq α] (d : List (α × β)) (k : α) : List (α × β) :=
  d.filter (fun kv => decide (¬ kv.1 = k))

/-- Python 2 str.splitlines worker: line terminators are LF, CR and CRLF. -/
def splitlinesGo : Str → Str → List Str
  | [], acc => if acc.isEmpty then [] else [acc.reverse]
  | '\r' :: '\n' :: rest, acc => acc.reverse :: splitlinesGo rest []
  | '\r' :: rest, acc => acc.reverse :: splitlinesGo rest []
  | '\n' :: rest, acc => acc.reverse :: splitlinesGo rest []
  | c :: rest, acc => splitlinesGo rest (c :: acc)

/-- Python 2 str.splitlines (terminators not kept). -/
def splitlines (s : Str) : List Str := splitlinesGo s []

/-- Whitespace characters recognised by Python 2 str.split(). -/
def isPyWhitespace (c : Char) : Bool :=
  c = ' ' ∨ c = '\t' ∨ c = '\n' ∨ c = '\r' ∨ c = '\x0b' ∨ c = '\x0c'

/-- Python 2 str.split() worker: split on runs of whitespace, no empties. -/
def splitWsGo : Str → Str → List Str
  | [], acc => if acc.isEmpty then [] else [acc.reverse]
  | c :: rest, acc =>
    if isPyWhitespace c then
      if acc.isEmpty then splitWsGo rest [] else acc.reverse :: splitWsGo rest []
    else splitWsGo rest (c :: acc)

/-- Python 2 str.split() with no separator argument. -/
def splitWs (s : Str) : List Str := splitWsGo s []

/-- Python substring test (needle in hay). -/
def containsSub (needle : Str) : Str → Bool
  | [] => needle.isEmpty
  | c :: rest => List.isPrefixOf needle (c :: rest) || containsSub needle rest

/-- Source lines 124-128: join every line with a terminating newline, the
last line included. -/
def _JoinLines (lines : List Str) : Str :=
  lines.foldr (fun line acc => line ++ '\n' :: acc) []

/-- Source line 133. -/
def _MAX_ADB_COMMAND_LENGTH : Nat := 512

/-- Source line 134. -/
def _MAX_ADB_OUTPUT_LENGTH : Nat := 32768

/-- Result of RunShellCommand in single-line mode; the error carries all the
output lines (source lines 540-546). -/
def runShellSingleLine (rawOutput : Str) : Except (List Str) Str :=
  let output := splitlines rawOutput
  match output with
  | [] => Except.ok []
  | [line] => Except.ok line
  | _ => Except.error output

/-- How RunShellCommand sends the assembled command to the device. -/
inductive ShellSendMode
  | inline
  | scriptFile
deriving DecidableEq

/-- Source lines 528-534: a command string shorter than
_MAX_ADB_COMMAND_LENGTH is sent inline, otherwise it is written to a device
temp script and run as sh scriptpath.  The argument is the fully assembled
command (after env prefixing, cwd wrapping and root wrapping). -/
def runShellSendMode (cmd : Str) : ShellSendMode :=
  if cmd.length < _MAX_ADB_COMMAND_LENGTH then ShellSendMode.inline
  else ShellSendMode.scriptFile

/-- Which code path ReadFile takes (source lines 996-1003). -/
inductive ReadPath
  | catPath
  | pullViaTempAndSu
  | pullDirect
deriving DecidableEq

/-- Source lines 996-1003: size is the file size parsed from the ls -l
listing (none when it could not be determined).  The cat branch is taken when
the size is unknown or at most _MAX_ADB_OUTPUT_LENGTH; otherwise the content
is pulled, through a root-owned device temp file when as_root is set and su
is needed. -/
def readFilePath (size : Option Nat) (asRoot needsSU : Bool) : ReadPath :=
  match size with
  | none => ReadPath.catPath
  | some n =>
    if n ≤ _MAX_ADB_OUTPUT_LENGTH then ReadPath.catPath
    else if asRoot && needsSU then ReadPath.pullViaTempAndSu
    else ReadPath.pullDirect

/-- Content returned by ReadFile for a device file currently holding
content.  The cat branch returns _JoinLines of the lines of the shell
output (RunShellCommand splits the raw cat output into lines, source
lines 537, 996-997); both pull branches return the file bytes unchanged
(_ReadFileWithPull, source lines 943-952, opens the pulled file and
returns its contents). -/
def readFileResult (content : Str) (size : Option Nat) (asRoot needsSU : Bool) : Str :=
  match readFilePath size asRoot needsSU with
  | ReadPath.catPath => _JoinLines (splitlines content)
  | ReadPath.pullViaTempAndSu => content
  | ReadPath.pullDirect => content

/-- Which code path WriteFile takes (source lines 1033-1051). -/
inductive WritePath
  | echoPath
  | pushViaTempAndCp
  | pushDirect
deriving DecidableEq

/-- Source lines 1033-1051: contents shorter than _MAX_ADB_COMMAND_LENGTH
are written with an echo -n shell command unless force_push is set;
otherwise the contents are pushed, through a device temp file plus cp as
root when as_root is set and su is needed. -/
def writeFilePath (contents : Str) (forcePush asRoot needsSU : Bool) : WritePath :=
  if !forcePush && contents.length < _MAX_ADB_COMMAND_LENGTH then WritePath.echoPath
  else if asRoot && needsSU then WritePath.pushViaTempAndCp
  else WritePath.pushDirect

/-- Device file content stored by WriteFile: every branch stores the
contents byte for byte (echo -n with the single-quoted contents, a direct
push of a host temp file holding the contents, or that push followed by
cp). -/
def writeFileStored (contents : Str) (forcePush asRoot needsSU : Bool) : Str :=
  match writeFilePath contents forcePush asRoot needsSU with
  | WritePath.echoPath => contents
  | WritePath.pushViaTempAndCp => contents
  | WritePath.pushDirect => contents

/-- WriteFile followed by ReadFile on the same path: the ls -l listing of
the written file reports its byte size, so ReadFile dispatches on the
stored length. -/
def writeReadRoundTrip (contents : Str) (forcePush asRoot needsSU : Bool) : Str :=
  let stored := writeFileStored contents forcePush asRoot needsSU
  readFileResult stored (some stored.length) asRoot needsSU

/-- Device state seen by the property accessors: the device property store
(read by getprop, written by setprop) and the DeviceUtils fact cache
self._cache. -/
structure DeviceState where
  props : List (String × String)
  cache : List (String × String)
deriving DecidableEq

/-- Output of the shell command getprop name: the property value, or the
empty string when the property is unset. -/
def shellGetprop (props : List (String × String)) (name : String) : String :=
  (alookup props name).getD ""

/-- Result of GetProp: the value, the updated state, and whether an
underlying shell query was issued. -/
structure GetPropResult where
  value : String
  state : DeviceState
  queried : Bool
deriving DecidableEq

/-- Source lines 1225-1257 (DeviceUtils.GetProp): the cache key is the
property name prefixed with the string underscore-prop-colon; a cached value
is returned without a query when cache is set and the key is present;
otherwise getprop is run and the result stored when cache is set or the key
was already present. -/
def GetProp (st : DeviceState) (propertyName : String) (cache : Bool) : GetPropResult :=
  let cacheKey := "_prop:" ++ propertyName
  if cache && (alookup st.cache cacheKey).isSome then
    { value := (alookup st.cache cacheKey).getD "", state := st, queried := false }
  else
    let value := shellGetprop st.props propertyName
    let newCache :=
      if cache || (alookup st.cache cacheKey).isSome then dictSet st.cache cacheKey value
      else st.cache
    { value := value, state := { st with cache := newCache }, queried := true }

/-- Result of SetProp: the updated state and whether the call succeeded
(ok = false models the CommandFailedError raised by the check). -/
structure SetPropResult where
  state : DeviceState
  ok : Bool
deriving DecidableEq

/-- Source lines 1259-1292 (DeviceUtils.SetProp): runs setprop, then
deletes the cache entry stored under the bare property name when present
(line 1285: the deleted key is property_name itself, not the prefixed
GetProp cache key), and when check is set re-reads the property through
GetProp (with cache left at its default, False) and fails on mismatch. -/
def SetProp (st : DeviceState) (propertyName value : String) (check : Bool) : SetPropResult :=
  let props1 := dictSet st.props propertyName value
  let cache1 :=
    if (alookup st.cache propertyName).isSome then dictDel st.cache propertyName
    else st.cache
  let st1 : DeviceState := { props := props1, cache := cache1 }
  if check then
    let g := GetProp st1 propertyName false
    { state := g.state, ok := decide (value = g.value) }
  else
    { state := st1, ok := true }

/-- Source lines 1331-1340 (DeviceUtils._GetPidsImpl), body of the loop over
the ps output lines: ps_data = line.split(); when the last field contains
process_name, the entry procs_pids[ps_data[-1]] = ps_data[1] is made.  A
line whose split has fewer than two fields makes one of the two indexings
raise IndexError, which the source catches and ignores, so such a line adds
no entry either way. -/
def getPidsStep (processName : Str) (procsPids : List (Str × Str)) (line : Str) :
    List (Str × Str) :=
  let psData := splitWs line
  match psData.getLast?, psData[1]? with
  | some name, some pid =>
    if containsSub processName name then dictSet procsPids name pid else procsPids
  | _, _ => procsPids

/-- Source lines 1331-1340: fold of getPidsStep over the ps output lines,
starting from the empty dict. -/
def _GetPidsImpl (processName : Str) (psLines : List Str) : List (Str × Str) :=
  psLines.foldl (getPidsStep processName) []

/-- Kill command built by KillAll (source line 574):
kill -signum pid1 pid2 ... over the values of the pid dict. -/
def killCmd (signum : Nat) (pids : List (Str × Str)) : List Str :=
  ("kill").toList :: ("-" ++ Nat.repr signum).toList :: pids.map Prod.snd

/-- Source lines 548-582 (DeviceUtils.KillAll, non-blocking part): resolves
the pid dict, raises CommandFailedError when it is empty, otherwise runs one
kill command over all dict values and returns the dict size. -/
def KillAll (processName : Str) (psLines : List Str) (signum : Nat) :
    Except Unit (List Str × Nat) :=
  let pids := _GetPidsImpl processName psLines
  if pids = [] then Except.error ()
  else Except.ok (killCmd signum pids, pids.length)

/-- Whether a ps output line matches process_name in the sense of
_GetPidsImpl: its split has a last field containing process_name as a
substring and a field at index 1 (the pid column), and the last field equals
name. -/
def psLineSelects (processName name line : Str) : Bool :=
  match (splitWs line).getLast?, (splitWs line)[1]? with
  | some nm, some _ => containsSub processName nm && decide (nm = name)
  | _, _ => false

/-- Field at index 1 of a ps output line: the pid column read by
_GetPidsImpl. -/
def psLinePid (line : Str) : Str := ((splitWs line)[1]?).getD []

/-- Whether the last whitespace-delimited field of a ps output line contains
process_name as a substring (false when the line has no fields). -/
def psLastFieldMatches (processName line : Str) : Bool :=
  (((splitWs line).getLast?).map (fun nm => containsSub processName nm)).getD false

/-- Dict built from a list of (path, hash) tuples, as
dict((d.path, d.hash) for d in device_hash_tuples) (source line 812). -/
def dictOf (tuples : List (Str × Str)) : List (Str × Str) :=
  tuples.foldl (fun d kv => dictSet d kv.1 kv.2) []

/-- Device absolute path real_device_path/relpath(host_abs_path)
(source lines 816-817); relpath abstracts os.path.relpath(p, real_host_path). -/
def deviceAbsPath (realDevicePath : Str) (relpath : Str → Str) (hostAbsPath : Str) : Str :=
  realDevicePath ++ '/' :: relpath hostAbsPath

/-- Source lines 811-818 (DeviceUtils._GetChangedFilesImpl, directory case):
host and device hash tuples are (absolute path, md5 hash) pairs; a host file
is appended to to_push when its device absolute path is missing from the
device dict or is mapped to a different hash. -/
def getChangedFilesDirCase (realDevicePath : Str) (relpath : Str → Str)
    (hostHashTuples deviceHashTuples : List (Str × Str)) : List (Str × Str) :=
  let deviceTupleDict := dictOf deviceHashTuples
  hostHashTuples.foldl
    (fun toPush hh =>
      if ¬ alookup deviceTupleDict (deviceAbsPath realDevicePath relpath hh.1) = some hh.2 then
        toPush ++ [(hh.1, deviceAbsPath realDevicePath relpath hh.1)]
      else toPush)
    []

/-- Source lines 805-810 (DeviceUtils._GetChangedFilesImpl, single-file
case): push the file when the device hash list is empty or its first hash
differs from the host hash. -/
def getChangedFilesFileCase (hostPath devicePath hostHash : Str)
    (deviceHashTuples : List (Str × Str)) : List (Str × Str) :=
  match deviceHashTuples with
  | [] => [(hostPath, devicePath)]
  | d0 :: _ => if ¬ d0.2 = hostHash then [(hostPath, devicePath)] else []

/-- Source lines 830-861 (DeviceUtils._ApproximateDuration), with the float
constants as exact rationals. -/
def _ApproximateDuration (adbCalls fileCount byteCount : ℚ) (isZipping : Bool) : ℚ :=
  let ADB_CALL_PENALTY : ℚ := 1 / 10
  let ADB_PUSH_PENALTY : ℚ := 1 / 100
  let ZIP_PENALTY : ℚ := 2
  let ZIP_RATE : ℚ := 10000000
  let TRANSFER_RATE : ℚ := 2000000
  let COMPRESSION_FACTOR : ℚ := 2
  let adbCallTime := ADB_CALL_PENALTY * adbCalls
  let adbPushSetupTime := ADB_PUSH_PENALTY * fileCount
  let zipTime := if isZipping then ZIP_PENALTY + byteCount / ZIP_RATE else 0
  let transferTime :=
    if isZipping then byteCount / (TRANSFER_RATE * COMPRESSION_FACTOR)
    else byteCount / TRANSFER_RATE
  adbCallTime + adbPushSetupTime + zipTime + transferTime

/-- Transfer actions PushChangedFiles can execute after the diff step. -/
inductive PushAction
  | pushIndividually (files : List (Str × Str))
  | pushZipped (files : List (Str × Str))
  | chmodRecursive777AsRoot (dirs : List Str)
deriving DecidableEq

/-- Source lines 744-782 (DeviceUtils.PushChangedFiles, after the diff):
files is the changed list; size, dirSize and dirFileCount abstract the host
filesystem quantities computed on lines 755-763.  Strategy choice of lines
774-782, with the chmod -R 777 as-root command over all destination
directories after the zipped push. -/
def PushChangedFiles (hostDeviceTuples files : List (Str × Str))
    (size dirSize dirFileCount : ℚ) (commandsInstalled : Bool) : List PushAction :=
  if files = [] then []
  else
    let fileCount : ℚ := files.length
    let pushDuration := _ApproximateDuration fileCount fileCount size false
    let dirPushDuration :=
      _ApproximateDuration (hostDeviceTuples.length : ℚ) dirFileCount dirSize false
    let zipDuration := _ApproximateDuration 1 1 size true
    if dirPushDuration < pushDuration ∧
        (dirPushDuration < zipDuration ∨ commandsInstalled = false) then
      [PushAction.pushIndividually hostDeviceTuples]
    else if pushDuration < zipDuration ∨ commandsInstalled = false then
      [PushAction.pushIndividually files]
    else
      [PushAction.pushZipped files,
       PushAction.chmodRecursive777AsRoot (hostDeviceTuples.map Prod.snd)]

/-- Outcome of EnableRoot: the resulting fact cache and whether the call
raised CommandFailedError. -/
structure EnableRootOutcome where
  cache : List (String × String)
  failed : Bool
deriving DecidableEq

/-- Source lines 248-266 (DeviceUtils.EnableRoot): on a user build the call
raises before touching the cache; otherwise the needs_su entry is deleted
from the cache when present, and only then adb.Root() is invoked, whose
failure (adbRootFails) propagates without restoring the cache. -/
def EnableRoot (isUserBuild adbRootFails : Bool) (cache : List (String × String)) :
    EnableRootOutcome :=
  if isUserBuild then { cache := cache, failed := true }
  else
    let cache1 :=
      if (alookup cache ("needs_su")).isSome then dictDel cache ("needs_su")
      else cache
    { cache := cache1, failed := adbRootFails }

deriving instance DecidableEq for Except

/-! Helper lemmas about the dict operations. -/

theorem alookup_dictSet {α β : Type} [DecidableEq α] (d : List (α × β)) (k k2 : α) (v : β) :
    alookup (dictSet d k v) k2 = if k = k2 then some v else alookup d k2 := by
  induction d with
  | nil =>
    by_cases h : k = k2 <;> simp [dictSet, alookup, h]
  | cons kv t ih =>
    obtain ⟨k0, v0⟩ := kv
    by_cases h0 : k0 = k
    · subst h0
      by_cases h2 : k0 = k2 <;> simp [dictSet, alookup, h2]
    · by_cases h2 : k0 = k2
      · subst h2
        have hk : ¬ k = k0 := fun h => h0 h.symm
        simp [dictSet, alookup, h0, hk]
      · simp [dictSet, alookup, h0, h2, ih]

theorem alookup_dictDel_self {α β : Type} [DecidableEq α] (d : List (α × β)) (k : α) :
    alookup (dictDel d k) k = none := by
  induction d with
  | nil => rfl
  | cons kv t ih =>
    by_cases h : kv.1 = k
    · simpa [dictDel, List.filter, h] using ih
    · simpa [dictDel, List.filter, alookup, h] using ih

theorem alookup_append {α β : Type} [DecidableEq α] (d1 d2 : List (α × β)) (k : α) :
    alookup (d1 ++ d2) k =
      match alookup d1 k with
      | some v => some v
      | none => alookup d2 k := by
  induction d1 with
  | nil => simp [alookup]
  | cons kv t ih =>
    by_cases h : kv.1 = k
    · simp [alookup, h]
    · simpa [alookup, h] using ih

theorem dictSet_append_of_none {α β : Type} [DecidableEq α] (d : List (α × β)) (k : α) (v : β)
    (h : alookup d k = none) : dictSet d k v = d ++ [(k, v)] := by
  induction d with
  | nil => rfl
  | cons kv t ih =>
    obtain ⟨k0, v0⟩ := kv
    by_cases h0 : k0 = k
    · simp [alookup, h0] at h
    · simp [alookup, h0] at h
      simp [dictSet, h0, ih h]

theorem alookup_eq_none_iff {α β : Type} [DecidableEq α] (d : List (α × β)) (k : α) :
    alookup d k = none ↔ ¬ k ∈ d.map Prod.fst := by
  induction d with
  | nil => simp [alookup]
  | cons kv t ih =>
    by_cases h : kv.1 = k
    · subst h
      simp [alookup]
    · have hstep : alookup (kv :: t) k = alookup t k := by simp [alookup, h]
      rw [hstep, ih]
      simp only [List.map_cons, List.mem_cons]
      constructor
      · intro hn hor
        rcases hor with h1 | h2
        · exact h h1.symm
        · exact hn h2
      · intro hn h2
        exact hn (Or.inr h2)

theorem alookup_eq_some_iff_mem {α β : Type} [DecidableEq α] (d : List (α × β))
    (hnd : (d.map Prod.fst).Nodup) (k : α) (v : β) :
    alookup d k = some v ↔ (k, v) ∈ d := by
  induction d with
  | nil => simp [alookup]
  | cons kv t ih =>
    obtain ⟨k0, v0⟩ := kv
    simp only [List.map_cons, List.nodup_cons] at hnd
    by_cases h : k0 = k
    · subst h
      simp only [alookup, if_pos rfl, List.mem_cons]
      constructor
      · rintro h2
        left
        simpa using h2.symm
      · rintro (h2 | h2)
        · simp only [Prod.mk.injEq] at h2
          simp [alookup, h2]
        · exfalso
          exact hnd.1 (List.mem_map.mpr ⟨(k0, v), h2, rfl⟩)
    · simp only [alookup, if_neg h, List.mem_cons]
      rw [ih hnd.2]
      constructor
      · exact fun h2 => Or.inr h2
      · rintro (h2 | h2)
        · exfalso
          simp only [Prod.mk.injEq] at h2
          exact absurd h2.1.symm h
        · exact h2

theorem nodup_keys_unique {α β : Type} [DecidableEq α] (l : List (α × β))
    (h : (l.map Prod.fst).Nodup) (a : α) (b c : β)
    (hb : (a, b) ∈ l) (hc : (a, c) ∈ l) : b = c := by
  have h1 := (alookup_eq_some_iff_mem l h a b).mpr hb
  have h2 := (alookup_eq_some_iff_mem l h a c).mpr hc
  rw [h1] at h2
  exact (Option.some.injEq _ _).mp h2

theorem dictOf_go_eq_append (d acc : List (Str × Str))
    (hnd : (d.map Prod.fst).Nodup)
    (hdisj : ∀ kv ∈ d, alookup acc kv.1 = none) :
    d.foldl (fun a kv => dictSet a kv.1 kv.2) acc = acc ++ d := by
  induction d generalizing acc with
  | nil => simp
  | cons kv t ih =>
    simp only [List.map_cons, List.nodup_cons] at hnd
    have hset : dictSet acc kv.1 kv.2 = acc ++ [(kv.1, kv.2)] :=
      dictSet_append_of_none acc kv.1 kv.2 (hdisj kv (by simp))
    have hdisj2 : ∀ kv2 ∈ t, alookup (acc ++ [(kv.1, kv.2)]) kv2.1 = none := by
      intro kv2 hkv2
      rw [alookup_append, hdisj kv2 (by simp [hkv2])]
      have hne : ¬ kv.1 = kv2.1 := by
        intro he
        exact hnd.1 (List.mem_map.mpr ⟨kv2, hkv2, he.symm⟩)
      simp [alookup, hne]
    calc (kv :: t).foldl (fun a kv => dictSet a kv.1 kv.2) acc
        = t.foldl (fun a kv => dictSet a kv.1 kv.2) (acc ++ [(kv.1, kv.2)]) := by
          rw [List.foldl_cons, hset]
      _ = (acc ++ [(kv.1, kv.2)]) ++ t := ih (acc ++ [(kv.1, kv.2)]) hnd.2 hdisj2
      _ = acc ++ kv :: t := by simp

theorem dictOf_eq_self (d : List (Str × Str)) (hnd : (d.map Prod.fst).Nodup) :
    dictOf d = d := by
  simpa using dictOf_go_eq_append d [] hnd (by intro kv _; rfl)

theorem find_append {α : Type} (p : α → Bool) (l1 l2 : List α) :
    List.find? p (l1 ++ l2) =
      match List.find? p l1 with
      | some x => some x
      | none => List.find? p l2 := by
  induction l1 with
  | nil => simp
  | cons a t ih =>
    by_cases h : p a
    · simp [List.find?_cons, h]
    · simp only [List.cons_append, List.find?_cons, h]
      simpa [h] using ih

theorem alookup_getPidsStep (p : Str) (acc : List (Str × Str)) (l name : Str) :
    alookup (getPidsStep p acc l) name =
      if psLineSelects p name l then some (psLinePid l) else alookup acc name := by
  unfold getPidsStep psLineSelects psLinePid
  cases hlast : (splitWs l).getLast? with
  | none => cases hpid : (splitWs l)[1]? <;> simp [hlast, hpid]
  | some nm =>
    cases hpid : (splitWs l)[1]? with
    | none => simp [hlast, hpid]
    | some pid =>
      by_cases hc : containsSub p nm
      · simp only [hlast, hpid, hc, Bool.true_and, if_true]
        rw [alookup_dictSet]
        by_cases he : nm = name <;> simp [he]
      · simp [hlast, hpid, hc]

theorem alookup_foldl_getPidsStep (p : Str) (lines : List Str)
    (acc : List (Str × Str)) (name : Str) :
    alookup (lines.foldl (getPidsStep p) acc) name =
      match List.find? (psLineSelects p name) lines.reverse with
      | some l => some (psLinePid l)
      | none => alookup acc name := by
  induction lines generalizing acc with
  | nil => simp
  | cons l t ih =>
    rw [List.foldl_cons, ih (getPidsStep p acc l)]
    rw [List.reverse_cons, find_append]
    cases hf : List.find? (psLineSelects p name) t.reverse with
    | some l2 => simp
    | none =>
      simp only
      rw [alookup_getPidsStep]
      by_cases hs : psLineSelects p name l <;> simp [List.find?, hs]

theorem alookup_getPids (p : Str) (lines : List Str) (name : Str) :
    alookup (_GetPidsImpl p lines) name =
      Option.map psLinePid (List.find? (psLineSelects p name) lines.reverse) := by
  rw [_GetPidsImpl, alookup_foldl_getPidsStep]
  cases List.find? (psLineSelects p name) lines.reverse <;> simp [alookup]

theorem getPidsStep_no_match (p : Str) (acc : List (Str × Str)) (l : Str)
    (h : psLastFieldMatches p l = false) : getPidsStep p acc l = acc := by
  unfold psLastFieldMatches at h
  unfold getPidsStep
  cases hlast : (splitWs l).getLast? with
  | none => cases hpid : (splitWs l)[1]? <;> simp [hlast, hpid]
  | some nm =>
    rw [hlast] at h
    simp at h
    cases hpid : (splitWs l)[1]? <;> simp [hlast, hpid, h]

theorem getPids_empty_of_no_match (p : Str) (lines : List Str)
    (h : ∀ l ∈ lines, psLastFieldMatches p l = false) :
    _GetPidsImpl p lines = [] := by
  rw [_GetPidsImpl]
  have hgen : ∀ acc, lines.foldl (getPidsStep p) acc = acc := by
    induction lines with
    | nil => intro acc; rfl
    | cons l t ih =>
      intro acc
      rw [List.foldl_cons, getPidsStep_no_match p acc l (h l (by simp))]
      exact ih (fun l2 hl2 => h l2 (by simp [hl2])) acc
  exact hgen []

theorem mem_foldl_push {α β : Type} (cond : α → Prop) [DecidablePred cond] (g : α → β)
    (l : List α) (acc : List β) (y : β) :
    (y ∈ l.foldl (fun a x => if cond x then a ++ [g x] else a) acc) ↔
      y ∈ acc ∨ ∃ x, x ∈ l ∧ cond x ∧ y = g x := by
  induction l generalizing acc with
  | nil => simp
  | cons a t ih =>
    rw [List.foldl_cons, ih]
    by_cases h : cond a
    · rw [if_pos h]
      simp only [List.mem_append, List.mem_cons, List.mem_singleton, List.mem_nil_iff,
        or_false]
      constructor
      · rintro ((hy | hy) | ⟨x, hx, hcx, hyx⟩)
        · exact Or.inl hy
        · exact Or.inr ⟨a, Or.inl rfl, h, hy⟩
        · exact Or.inr ⟨x, Or.inr hx, hcx, hyx⟩
      · rintro (hy | ⟨x, (hx | hx), hcx, hyx⟩)
        · exact Or.inl (Or.inl hy)
        · exact Or.inl (Or.inr (hx ▸ hyx))
        · exact Or.inr ⟨x, hx, hcx, hyx⟩
    · rw [if_neg h]
      simp only [List.mem_cons]
      constructor
      · rintro (hy | ⟨x, hx, hcx, hyx⟩)
        · exact Or.inl hy
        · exact Or.inr ⟨x, Or.inr hx, hcx, hyx⟩
      · rintro (hy | ⟨x, (hx | hx), hcx, hyx⟩)
        · exact Or.inl hy
        · exact absurd (hx ▸ hcx) h
        · exact Or.inr ⟨x, hx, hcx, hyx⟩

theorem writeFileStored_eq (c : Str) (f a n : Bool) : writeFileStored c f a n = c := by
  unfold writeFileStored
  cases writeFilePath c f a n <;> rfl

/-! Claim theorems. -/

/-- C1 (code bug): with device property myprop holding old, GetProp(myprop,
cache=True) queries once and caches; SetProp(myprop, new, check=False)
updates the device property but deletes only the bare key myprop from the
cache while GetProp caches under the prefixed key, so the stale entry
survives; the next GetProp(myprop, cache=True) issues no shell query and
returns old although the device now holds new. -/
theorem setProp_leaves_stale_getProp_cache :
    let st0 : DeviceState := { props := [("myprop", "old")], cache := [] }
    let g1 := GetProp st0 ("myprop") true
    let s2 := SetProp g1.state ("myprop") ("new") false
    let g3 := GetProp s2.state ("myprop") true
    g1.value = "old" ∧ g1.queried = true ∧ s2.ok = true ∧
    shellGetprop s2.state.props ("myprop") = "new" ∧
    alookup s2.state.cache ("_prop:myprop") = some ("old") ∧
    g3.queried = false ∧ g3.value = "old" := by
  decide

/-- C2 counterexample: WriteFile of the three-byte content abc followed by
ReadFile returns abc plus a trailing newline, not a string identical to the
input. -/
theorem writeRead_roundtrip_counterexample :
    writeReadRoundTrip (("abc").toList) false false false = ("abc\n").toList ∧
    ¬ writeReadRoundTrip (("abc").toList) false false false = ("abc").toList := by
  decide

/-- C2 amended: WriteFile followed by ReadFile returns the input with
universal-newline normalization and every line terminated (the join of the
line split of the input) whenever the content size is at most 32768, the
read then going through cat; for content above 32768 the read pulls the file
and the result is identical to the input. -/
theorem writeRead_roundtrip_normalized (c : Str) (forcePush asRoot needsSU : Bool) :
    (c.length ≤ 32768 →
      writeReadRoundTrip c forcePush asRoot needsSU = _JoinLines (splitlines c)) ∧
    (32768 < c.length → writeReadRoundTrip c forcePush asRoot needsSU = c) := by
  constructor
  · intro h
    simp [writeReadRoundTrip, writeFileStored_eq, readFileResult, readFilePath,
      _MAX_ADB_OUTPUT_LENGTH, h]
  · intro h
    have h2 : ¬ c.length ≤ 32768 := by omega
    cases hb : asRoot && needsSU <;>
      simp [writeReadRoundTrip, writeFileStored_eq, readFileResult, readFilePath,
        _MAX_ADB_OUTPUT_LENGTH, h2, hb]

theorem writeRead_roundtrip_normalized_witness :
    writeReadRoundTrip (("x").toList) false false false = ("x\n").toList ∧
    writeReadRoundTrip (List.replicate 32769 'a') false false false =
      List.replicate 32769 'a' := by
  constructor
  · have h := (writeRead_roundtrip_normalized (("x").toList) false false false).1 (by decide)
    rw [h]
    decide
  · exact (writeRead_roundtrip_normalized (List.replicate 32769 'a') false false false).2
      (by rw [List.length_replicate]; norm_num)

/-- C3 counterexample: a read whose size could not be determined from the
ls -l listing takes the shell cat path, not the pull-based fallback. -/
theorem readFile_unknown_size_counterexample :
    readFilePath none true true = ReadPath.catPath ∧
    ¬ readFilePath none true true = ReadPath.pullViaTempAndSu ∧
    ¬ readFilePath none true true = ReadPath.pullDirect := by
  decide

/-- C3 amended: the cat path is used exactly when the size is unknown or a
determined size is at most 32768; a determined size above 32768 selects the
pull fallback, through a root-owned device temp file when asRoot is set and
su is needed, directly otherwise. -/
theorem readFile_path_dispatch (size : Option Nat) (asRoot needsSU : Bool) :
    (readFilePath size asRoot needsSU = ReadPath.catPath ↔
      size = none ∨ ∃ n, size = some n ∧ n ≤ 32768) ∧
    (∀ n, size = some n → 32768 < n →
      readFilePath size asRoot needsSU =
        if asRoot && needsSU then ReadPath.pullViaTempAndSu else ReadPath.pullDirect) := by
  cases size with
  | none => simp [readFilePath]
  | some n =>
    constructor
    · by_cases h : n ≤ 32768
      · simp [readFilePath, _MAX_ADB_OUTPUT_LENGTH, h]
      · cases hb : asRoot && needsSU <;>
          simp [readFilePath, _MAX_ADB_OUTPUT_LENGTH, h, hb]
    · intro m hm hgt
      have hm2 : n = m := by injection hm
      subst hm2
      have h2 : ¬ n ≤ 32768 := by omega
      simp [readFilePath, _MAX_ADB_OUTPUT_LENGTH, h2]

theorem readFile_path_dispatch_witness :
    readFilePath (some 40000) true true = ReadPath.pullViaTempAndSu ∧
    readFilePath (some 40000) false false = ReadPath.pullDirect := by
  constructor
  · have h := (readFile_path_dispatch (some 40000) true true).2 40000 rfl (by norm_num)
    simpa using h
  · have h := (readFile_path_dispatch (some 40000) false false).2 40000 rfl (by norm_num)
    simpa using h

/-- C6: RunShellCommand in single-line mode returns the empty string on zero
output lines, the unique line on exactly one, and fails carrying all the
lines on two or more. -/
theorem runShell_single_line_contract (raw : Str) :
    (splitlines raw = [] → runShellSingleLine raw = Except.ok []) ∧
    (∀ line, splitlines raw = [line] → runShellSingleLine raw = Except.ok line) ∧
    (∀ l1 l2 rest, splitlines raw = l1 :: l2 :: rest →
      runShellSingleLine raw = Except.error (l1 :: l2 :: rest)) := by
  refine ⟨fun h => ?_, fun line h => ?_, fun l1 l2 rest h => ?_⟩ <;>
    simp [runShellSingleLine, h]

theorem runShell_single_line_contract_witness :
    runShellSingleLine (("a\nb").toList) = Except.error [("a").toList, ("b").toList] :=
  (runShell_single_line_contract (("a\nb").toList)).2.2 (("a").toList) (("b").toList) []
    (by decide)

/-- C7 counterexample: a command of length exactly 512 does not exceed the
threshold value 512 yet is sent via the script file, refuting the claim
that commands of length not exceeding 512 are sent inline. -/
theorem sendMode_at_threshold_counterexample :
    (List.replicate 512 'a').length ≤ 512 ∧
    runShellSendMode (List.replicate 512 'a') = ShellSendMode.scriptFile ∧
    ¬ runShellSendMode (List.replicate 512 'a') = ShellSendMode.inline := by
  have hlen : (List.replicate 512 'a').length = 512 := List.length_replicate 512 'a'
  have hmode : runShellSendMode (List.replicate 512 'a') = ShellSendMode.scriptFile := by
    unfold runShellSendMode _MAX_ADB_COMMAND_LENGTH
    rw [hlen]
    norm_num
  refine ⟨by omega, hmode, ?_⟩
  rw [hmode]
  exact fun hcon => ShellSendMode.noConfusion hcon

/-- C7 amended: the assembled command is sent inline exactly when its length
is strictly below 512, and through a device temp script exactly when its
length is at least 512. -/
theorem sendMode_threshold_dispatch (cmd : Str) :
    (runShellSendMode cmd = ShellSendMode.inline ↔ cmd.length < 512) ∧
    (runShellSendMode cmd = ShellSendMode.scriptFile ↔ 512 ≤ cmd.length) := by
  unfold runShellSendMode _MAX_ADB_COMMAND_LENGTH
  by_cases h : cmd.length < 512
  · have h2 : ¬ 512 ≤ cmd.length := by omega
    simp [h, h2]
  · have h2 : 512 ≤ cmd.length := by omega
    simp [h, h2]

theorem sendMode_threshold_dispatch_witness :
    runShellSendMode (("ls /root").toList) = ShellSendMode.inline :=
  (sendMode_threshold_dispatch (("ls /root").toList)).1.mpr (by decide)

/-- C9: KillAll fails with a command-failure signal, rather than succeeding
with zero kills, when no process-listing line has a last field containing
processName. -/
theorem killAll_no_match_fails (p : Str) (lines : List Str) (signum : Nat)
    (h : ∀ l ∈ lines, psLastFieldMatches p l = false) :
    KillAll p lines signum = Except.error () := by
  have hp := getPids_empty_of_no_match p lines h
  simp [KillAll, hp]

theorem killAll_no_match_fails_witness :
    KillAll (("com.example.app").toList) [("root 1 init").toList] 9 = Except.error () :=
  killAll_no_match_fails (("com.example.app").toList) [("root 1 init").toList] 9 (by decide)

/-- C10: EnableRoot on a non-user build purges the needs_su cache entry and
only then invokes the root restart, so the purge persists even when enabling
root fails; on a user build the call fails without touching the cache. -/
theorem enableRoot_needs_su_purge (rootFails : Bool) (cache : List (String × String)) :
    alookup (EnableRoot false rootFails cache).cache ("needs_su") = none ∧
    (EnableRoot false rootFails cache).failed = rootFails ∧
    EnableRoot true rootFails cache = { cache := cache, failed := true } := by
  refine ⟨?_, rfl, rfl⟩
  unfold EnableRoot
  simp only [Bool.false_eq_true, if_false]
  by_cases h : (alookup cache ("needs_su")).isSome
  · simp only [if_pos h]
    exact alookup_dictDel_self cache ("needs_su")
  · simp only [if_neg h]
    exact Option.not_isSome_iff_eq_none.mp h

/-- C4 counterexample: two listed processes share the name com.foo with
pids 100 and 200; the pid dict keeps only the entry of the later line, so
KillAll signals pid 200 alone although the line of pid 100 also matches. -/
theorem killAll_shared_name_counterexample :
    _GetPidsImpl (("com.foo").toList)
        [("u0_a1 100 x com.foo").toList, ("u0_a2 200 y com.foo").toList] =
      [((("com.foo").toList), (("200").toList))] ∧
    KillAll (("com.foo").toList)
        [("u0_a1 100 x com.foo").toList, ("u0_a2 200 y com.foo").toList] 9 =
      Except.ok ([("kill").toList, ("-9").toList, ("200").toList], 1) ∧
    psLastFieldMatches (("com.foo").toList) (("u0_a1 100 x com.foo").toList) = true := by
  refine ⟨by decide, ?_, by decide⟩
  have h : _GetPidsImpl (("com.foo").toList)
      [("u0_a1 100 x com.foo").toList, ("u0_a2 200 y com.foo").toList] =
      [((("com.foo").toList), (("200").toList))] := by decide
  rw [KillAll, h]
  decide

/-- C4 amended: when at least one process matches, KillAll issues one kill
command over the values of the name-to-pid dict and nothing else; that dict
holds, for each distinct matching process-name field, exactly the pid field
of the last process-listing line carrying that name, so of several matching
processes sharing a name only the last-listed pid is signalled. -/
theorem killAll_one_pid_per_name (p : Str) (lines : List Str) (signum : Nat)
    (h : ¬ _GetPidsImpl p lines = []) :
    KillAll p lines signum =
      Except.ok (killCmd signum (_GetPidsImpl p lines), (_GetPidsImpl p lines).length) ∧
    ∀ name, alookup (_GetPidsImpl p lines) name =
      Option.map psLinePid (List.find? (psLineSelects p name) lines.reverse) := by
  constructor
  · rw [KillAll, if_neg h]
  · exact fun name => alookup_getPids p lines name

theorem killAll_one_pid_per_name_witness :
    KillAll (("com.foo").toList)
        [("u0_a1 100 x com.foo").toList, ("u0_a2 200 y com.foo").toList] 9 =
      Except.ok (killCmd 9 [((("com.foo").toList), (("200").toList))], 1) := by
  have h := (killAll_one_pid_per_name (("com.foo").toList)
      [("u0_a1 100 x com.foo").toList, ("u0_a2 200 y com.foo").toList] 9 (by decide)).1
  rw [h]
  decide

/-- C5: under the dict invariants (host paths distinct, device paths
distinct), a host file appears in the changed-files output exactly when no
device entry with the corresponding device absolute path and an equal hash
exists; every output element comes from such a host file; and in the
single-file case a transfer unit is returned exactly when the device hash is
absent or differs. -/
theorem getChangedFiles_exact_diff (realDevicePath : Str) (relpath : Str → Str)
    (host device : List (Str × Str))
    (hHost : (host.map Prod.fst).Nodup)
    (hDev : (device.map Prod.fst).Nodup) :
    (∀ hp hh, (hp, hh) ∈ host →
      ((hp, deviceAbsPath realDevicePath relpath hp) ∈
          getChangedFilesDirCase realDevicePath relpath host device ↔
        ¬ (deviceAbsPath realDevicePath relpath hp, hh) ∈ device)) ∧
    (∀ y ∈ getChangedFilesDirCase realDevicePath relpath host device,
      ∃ hh, (y.1, hh) ∈ host ∧ y.2 = deviceAbsPath realDevicePath relpath y.1 ∧
        ¬ (y.2, hh) ∈ device) ∧
    (∀ hp dp hhash, ((hp, dp) ∈ getChangedFilesFileCase hp dp hhash device ↔
      ¬ (device.head?).map Prod.snd = some hhash)) := by
  have hdict : dictOf device = device := dictOf_eq_self device hDev
  have hmem : ∀ y, (y ∈ getChangedFilesDirCase realDevicePath relpath host device ↔
      y ∈ ([] : List (Str × Str)) ∨ ∃ x, x ∈ host ∧
        (¬ alookup (dictOf device) (deviceAbsPath realDevicePath relpath x.1) = some x.2) ∧
        y = (x.1, deviceAbsPath realDevicePath relpath x.1)) := by
    intro y
    exact mem_foldl_push
      (fun hh => ¬ alookup (dictOf device) (deviceAbsPath realDevicePath relpath hh.1) = some hh.2)
      (fun hh => (hh.1, deviceAbsPath realDevicePath relpath hh.1)) host [] y
  refine ⟨?_, ?_, ?_⟩
  · intro hp hh hmemhost
    rw [hmem (hp, deviceAbsPath realDevicePath relpath hp)]
    constructor
    · rintro (hy | ⟨x, hx, hcond, hyeq⟩)
      · simp at hy
      · obtain ⟨x1, x2⟩ := x
        have hx1 : hp = x1 := by
          simpa using congrArg Prod.fst hyeq
        subst hx1
        have hx2 : x2 = hh :=
          nodup_keys_unique host hHost hp x2 hh hx hmemhost
        subst hx2
        rw [hdict, alookup_eq_some_iff_mem device hDev] at hcond
        exact hcond
    · intro hnotin
      refine Or.inr ⟨(hp, hh), hmemhost, ?_, rfl⟩
      rw [hdict, alookup_eq_some_iff_mem device hDev]
      exact hnotin
  · intro y hy
    rw [hmem y] at hy
    rcases hy with hy | ⟨x, hx, hcond, hyeq⟩
    · simp at hy
    · subst hyeq
      refine ⟨x.2, by simpa using hx, rfl, ?_⟩
      rw [hdict, alookup_eq_some_iff_mem device hDev] at hcond
      simpa using hcond
  · intro hp dp hhash
    unfold getChangedFilesFileCase
    cases device with
    | nil => simp
    | cons d0 t =>
      by_cases h : d0.2 = hhash <;> simp [h]

theorem getChangedFiles_exact_diff_witness :
    ((("a").toList, ("D/a").toList) ∈
      getChangedFilesDirCase (("D").toList) (fun s => s)
        [((("a").toList), (("h1").toList))] [((("D/a").toList), (("h2").toList))]) := by
  have h := (getChangedFiles_exact_diff (("D").toList) (fun s => s)
      [((("a").toList), (("h1").toList))] [((("D/a").toList), (("h2").toList))]
      (by decide) (by decide)).1 (("a").toList) (("h1").toList) (by decide)
  have h2 := h.mpr (by decide)
  have h3 : deviceAbsPath (("D").toList) (fun s => s) (("a").toList) = ("D/a").toList := by
    decide
  rw [h3] at h2
  exact h2

theorem PushChangedFiles_eq (tuples files : List (Str × Str))
    (size dirSize dirFileCount : ℚ) (installed : Bool) (hne : ¬ files = []) :
    PushChangedFiles tuples files size dirSize dirFileCount installed =
      (if _ApproximateDuration (tuples.length : ℚ) dirFileCount dirSize false <
            _ApproximateDuration (files.length : ℚ) (files.length : ℚ) size false ∧
          (_ApproximateDuration (tuples.length : ℚ) dirFileCount dirSize false <
              _ApproximateDuration 1 1 size true ∨ installed = false) then
        [PushAction.pushIndividually tuples]
      else if _ApproximateDuration (files.length : ℚ) (files.length : ℚ) size false <
            _ApproximateDuration 1 1 size true ∨ installed = false then
        [PushAction.pushIndividually files]
      else
        [PushAction.pushZipped files,
         PushAction.chmodRecursive777AsRoot (tuples.map Prod.snd)]) := by
  unfold PushChangedFiles
  rw [if_neg hne]

/-- C8: with a non-empty changed-file list, PushChangedFiles executes the
per-directory push when its estimate is below the per-file estimate and
either below the zip estimate or the zip tooling is unavailable; otherwise
the per-file push when its estimate is below the zip estimate or the tooling
is unavailable; otherwise the zipped push followed by a recursive
chmod 777 as root over every destination directory. -/
theorem pushChangedFiles_strategy_selection (tuples files : List (Str × Str))
    (size dirSize dirFileCount : ℚ) (installed : Bool) (hne : ¬ files = []) :
    ((_ApproximateDuration (tuples.length : ℚ) dirFileCount dirSize false <
          _ApproximateDuration (files.length : ℚ) (files.length : ℚ) size false ∧
        (_ApproximateDuration (tuples.length : ℚ) dirFileCount dirSize false <
            _ApproximateDuration 1 1 size true ∨ installed = false)) →
      PushChangedFiles tuples files size dirSize dirFileCount installed =
        [PushAction.pushIndividually tuples]) ∧
    (¬ (_ApproximateDuration (tuples.length : ℚ) dirFileCount dirSize false <
          _ApproximateDuration (files.length : ℚ) (files.length : ℚ) size false ∧
        (_ApproximateDuration (tuples.length : ℚ) dirFileCount dirSize false <
            _ApproximateDuration 1 1 size true ∨ installed = false)) →
      (_ApproximateDuration (files.length : ℚ) (files.length : ℚ) size false <
          _ApproximateDuration 1 1 size true ∨ installed = false) →
      PushChangedFiles tuples files size dirSize dirFileCount installed =
        [PushAction.pushIndividually files]) ∧
    (¬ (_ApproximateDuration (tuples.length : ℚ) dirFileCount dirSize false <
          _ApproximateDuration (files.length : ℚ) (files.length : ℚ) size false ∧
        (_ApproximateDuration (tuples.length : ℚ) dirFileCount dirSize false <
            _ApproximateDuration 1 1 size true ∨ installed = false)) →
      ¬ (_ApproximateDuration (files.length : ℚ) (files.length : ℚ) size false <
          _ApproximateDuration 1 1 size true ∨ installed = false) →
      PushChangedFiles tuples files size dirSize dirFileCount installed =
        [PushAction.pushZipped files,
         PushAction.chmodRecursive777AsRoot (tuples.map Prod.snd)]) := by
  rw [PushChangedFiles_eq tuples files size dirSize dirFileCount installed hne]
  refine ⟨fun h1 => ?_, fun h1 h2 => ?_, fun h1 h2 => ?_⟩
  · rw [if_pos h1]
  · rw [if_neg h1, if_pos h2]
  · rw [if_neg h1, if_neg h2]

theorem pushChangedFiles_strategy_selection_witness :
    PushChangedFiles [((("a").toList), (("b").toList))]
        [((("a").toList), (("b").toList)), ((("c").toList), (("d").toList))]
        0 0 1 true = [PushAction.pushIndividually [((("a").toList), (("b").toList))]] := by
  exact (pushChangedFiles_strategy_selection [((("a").toList), (("b").toList))]
      [((("a").toList), (("b").toList)), ((("c").toList), (("d").toList))]
      0 0 1 true (by decide)).1 (by norm_num [_ApproximateDuration])

end DeviceUtilsModel
